import Mathlib

/-!
Verification of the streaming code-synchronization core of the Prompt2Code
editor extension, shallowly embedded in Lean 4.

JavaScript strings are modelled as lists of characters (`Str`); the editor
document and its tracked target region are modelled by their textual content;
asynchronous model calls are modelled by oracles `Nat → …` giving the outcome
of each round or attempt.  Sources: `src/groqClient.ts` (overlap-safe
appender, completeness heuristic, continuation controller, retry policy) and
`src/chatViewProvider.ts` (stream updaters, checkpoint store, target-region
selection).
-/

/-- JavaScript strings are modelled as lists of characters. -/
abbrev Str := List Char

/-- JavaScript `String.prototype.trim`: strips leading and trailing
whitespace. -/
def jsTrim (s : Str) : Str :=
  ((s.dropWhile Char.isWhitespace).reverse.dropWhile Char.isWhitespace).reverse

/-- Number of occurrences in `s` of characters belonging to `cs`;
models `(s.match(/[c1c2…]/g) || []).length` for a character class. -/
def countAny (s : Str) (cs : List Char) : Nat :=
  (s.filter (fun c => c ∈ cs)).length

/-- Lowercasing, modelling `String.prototype.toLowerCase`. -/
def toLowerStr (s : Str) : Str := s.map Char.toLower

/-- Substring test, modelling `String.prototype.includes`. -/
def containsSub (hay needle : Str) : Bool :=
  (List.range (hay.length + 1)).any fun i => needle.isPrefixOf (hay.drop i)

/-!
## Overlap-safe appender — `appendAvoidingOverlap`, src/groqClient.ts:828-839

```ts
private appendAvoidingOverlap(current: string, addition: string): string {
  if (!current) return addition;
  if (!addition) return current;
  const maxOverlap = Math.min(500, current.length, addition.length);
  for (let overlap = maxOverlap; overlap > 0; overlap--) {
    if (current.endsWith(addition.slice(0, overlap))) {
      return current + addition.slice(overlap);
    }
  }
  return current + addition;
}
```
-/

/-- The scan of the `for` loop: the largest `overlap ≤ fuel` such that
`addition.slice(0, overlap)` is a suffix of `current`, and `0` when no such
overlap exists. -/
def findOverlap (current addition : Str) : Nat → Nat
  | 0 => 0
  | k + 1 =>
    if (addition.take (k + 1)).isSuffixOf current then k + 1
    else findOverlap current addition k

def appendAvoidingOverlap (current addition : Str) : Str :=
  if current = [] then addition
  else if addition = [] then current
  else
    let maxOverlap := min 500 (min current.length addition.length)
    current ++ addition.drop (findOverlap current addition maxOverlap)

/-- The overlap length as the specification describes it: the largest
`k ≤ min(500, len current, len addition)` whose suffix/prefix condition
holds, `0` when none does. -/
def overlapLenSpec (current addition : Str) : Nat :=
  Nat.findGreatest (fun k => (addition.take k).isSuffixOf current = true)
    (min 500 (min current.length addition.length))

lemma findOverlap_eq_findGreatest (current addition : Str) (n : Nat) :
    findOverlap current addition n =
      Nat.findGreatest (fun k => (addition.take k).isSuffixOf current = true) n := by
  induction n with
  | zero => rfl
  | succ k ih =>
    rw [findOverlap, Nat.findGreatest_succ]
    by_cases h : (addition.take (k + 1)).isSuffixOf current = true
    · simp [h]
    · simp only [h, if_false]
      simp only [Bool.not_eq_true] at h
      simp [h, ih]

lemma findOverlap_le (current addition : Str) (n : Nat) :
    findOverlap current addition n ≤ n := by
  rw [findOverlap_eq_findGreatest]
  exact Nat.findGreatest_le n

/-- Central characterisation: the appender always returns
`current ++ addition.drop (overlapLenSpec current addition)` (the empty-input
branches agree with this formula as well). -/
lemma append_eq_spec (current addition : Str) :
    appendAvoidingOverlap current addition =
      current ++ addition.drop (overlapLenSpec current addition) := by
  unfold appendAvoidingOverlap overlapLenSpec
  by_cases hc : current = []
  · subst hc
    simp only [if_pos rfl]
    have : min 500 (min ([] : Str).length addition.length) = 0 := by simp
    rw [this]
    simp [Nat.findGreatest]
  · by_cases ha : addition = []
    · subst ha
      simp [hc]
    · simp only [if_neg hc, if_neg ha]
      rw [findOverlap_eq_findGreatest]

lemma overlapLenSpec_le (current addition : Str) :
    overlapLenSpec current addition ≤ min 500 (min current.length addition.length) :=
  Nat.findGreatest_le _

/-- Length of the appender result: `len current + len addition - overlap`. -/
lemma append_length (current addition : Str) :
    (appendAvoidingOverlap current addition).length =
      current.length + (addition.length - overlapLenSpec current addition) := by
  rw [append_eq_spec]
  simp [List.length_drop]

/-!
## Completeness heuristic — `looksIncomplete`, src/groqClient.ts:845-874

```ts
private looksIncomplete(code: string, language: string): boolean {
  const trimmed = code.trim();
  if (!trimmed || trimmed.length < 50) { return false; }
  const lang = language.toLowerCase();
  if (lang === "html" || lang === "htm") {
    return !/<\/html\s*>\s*$/i.test(trimmed);
  }
  if (/react|jsx|tsx/i.test(lang)) {
    const opens = (trimmed.match(/[{(]/g) || []).length;
    const closes = (trimmed.match(/[})]/g) || []).length;
    return opens > closes;
  }
  if (lang === "css" || lang === "scss") {
    const opens = (trimmed.match(/{/g) || []).length;
    const closes = (trimmed.match(/}/g) || []).length;
    return opens > closes;
  }
  const opens = (trimmed.match(/[{([]/g) || []).length;
  const closes = (trimmed.match(/[})]/g) || []).length;
  return opens > closes;
}
```
Note the character classes: in the general branch the opens class is
`{`, `(`, `[` while the closes class is only `}`, `)`.
-/

/-- The regex test `/<\/html\s*>\s*$/i.test(trimmed)`: since `trimmed` has no
trailing whitespace, it holds iff `trimmed` ends with `</html` (case
insensitive) followed by whitespace followed by `>`. -/
def htmlClosed (trimmed : Str) : Bool :=
  match trimmed.reverse with
  | '>' :: rest =>
      ("lmth/<".toList).isPrefixOf ((rest.dropWhile Char.isWhitespace).map Char.toLower)
  | _ => false

/-- The test `lang === "html" || lang === "htm"` on the lowercased language id. -/
def isHtmlLang (lang : Str) : Bool :=
  lang = "html".toList || lang = "htm".toList

/-- The test `/react|jsx|tsx/i.test(lang)` on the lowercased language id. -/
def isJsxLang (lang : Str) : Bool :=
  containsSub lang "react".toList || containsSub lang "jsx".toList ||
    containsSub lang "tsx".toList

/-- The test `lang === "css" || lang === "scss"` on the lowercased language id. -/
def isCssLang (lang : Str) : Bool :=
  lang = "css".toList || lang = "scss".toList

def looksIncomplete (code : Str) (language : Str) : Bool :=
  let trimmed := jsTrim code
  if trimmed = [] || trimmed.length < 50 then false
  else
    let lang := toLowerStr language
    if isHtmlLang lang then
      ! htmlClosed trimmed
    else if isJsxLang lang then
      decide (countAny trimmed ['\x7d', ')'] < countAny trimmed ['\x7b', '('])
    else if isCssLang lang then
      decide (countAny trimmed ['\x7d'] < countAny trimmed ['\x7b'])
    else
      decide (countAny trimmed ['\x7d', ')'] < countAny trimmed ['\x7b', '(', '['])

/-!
## Continuation controller — `completeWithContinuation`, src/groqClient.ts:295-349
(same loop shape as `generateCode`, src/groqClient.ts:381-411, with
`MAX_CONTINUATIONS = 4` there and `options?.maxContinuations ?? 5` here)

```ts
let assembled = "";
for (let attempt = 0; attempt < MAX_CONTINUATIONS; attempt++) {
  const result = await this.requestCompletion(callMessages, { maxTokens });
  assembled = this.appendAvoidingOverlap(assembled, result.content);
  if (result.finishReason !== "length") { break; }
}
return assembled;
```
-/

/-- Outcome of one successful model call: the returned content and the
API finish reason (`choice?.finish_reason`, possibly absent). -/
structure RoundResult where
  content : Str
  finishReason : Option String
deriving DecidableEq

/-- The continuation loop.  `oracle i` is the result of the `i`-th model
call, `fuel` the number of rounds still allowed, `attempt` the number of
calls made so far.  Returns the assembled output and the total number of
model calls issued. -/
def contRun (oracle : Nat → RoundResult) (attempt fuel : Nat) (assembled : Str) :
    Str × Nat :=
  match fuel with
  | 0 => (assembled, attempt)
  | fuel + 1 =>
    let r := oracle attempt
    let assembled' := appendAvoidingOverlap assembled r.content
    if r.finishReason = some "length" then
      contRun oracle (attempt + 1) fuel assembled'
    else (assembled', attempt + 1)

def completeWithContinuation (oracle : Nat → RoundResult) (maxRounds : Nat) :
    Str × Nat :=
  contRun oracle 0 maxRounds []

/-- Variant in which a round's `requestCompletion` may throw (after its own
retry policy is exhausted).  The loop body in src/groqClient.ts:314-348 has no
try/catch, so a throw propagates out of the loop, discarding `assembled`. -/
def contRunE (oracle : Nat → Except String RoundResult) (attempt fuel : Nat)
    (assembled : Str) : Except String (Str × Nat) :=
  match fuel with
  | 0 => .ok (assembled, attempt)
  | fuel + 1 =>
    match oracle attempt with
    | .error e => .error e
    | .ok r =>
      let assembled' := appendAvoidingOverlap assembled r.content
      if r.finishReason = some "length" then
        contRunE oracle (attempt + 1) fuel assembled'
      else .ok (assembled', attempt + 1)

def completeWithContinuationE (oracle : Nat → Except String RoundResult)
    (maxRounds : Nat) : Except String (Str × Nat) :=
  contRunE oracle 0 maxRounds []

/-- Concrete failing execution for the continuation failure-semantics claim:
round 0 succeeds with non-empty output and a length-limited finish, round 1
(after its retry policy) throws. -/
def failingOracle : Nat → Except String RoundResult
  | 0 => .ok ⟨"let x = 1;".toList, some "length"⟩
  | _ => .error "ECONNRESET"

/-!
## Retry policy — `requestCompletion`, src/groqClient.ts:173-277

```ts
const MAX_RETRIES = 3;
for (let attempt = 0; attempt <= MAX_RETRIES; attempt++) {
  try {
    const response = await axios.post(...);
    const content = choice?.message?.content;
    if (!content || !content.trim()) {
      throw new Error("Groq returned an empty response");
    }
    return { content, finishReason: choice?.finish_reason };
  } catch (error) {
    if (!axios.isAxiosError(error)) { ...; throw error; }
    const status = error.response?.status;
    const code = error.code;
    const isRateLimit = status === 429;
    const isTransientNetwork = !status &&
      (code === "ENOTFOUND" || code === "ECONNRESET" ||
       code === "ETIMEDOUT" || code === "EAI_AGAIN");
    const canRetry = attempt < MAX_RETRIES && (isRateLimit || isTransientNetwork);
    if (canRetry) {
      let backoffMs = 500 * Math.pow(2, attempt);
      if (isRateLimit) {
        const retryAfterSeconds = Number(error.response?.headers?.["retry-after"]);
        if (Number.isFinite(retryAfterSeconds) && retryAfterSeconds > 0) {
          backoffMs = Math.max(backoffMs, retryAfterSeconds * 1000);
        }
      }
      await this.sleep(backoffMs);
      continue;
    }
    throw error;
  }
}
throw new Error("Groq request failed after retries");
```
-/

/-- An axios failure: optional HTTP status, optional error code, and the
parsed `retry-after` header in seconds when present. -/
structure AxiosError where
  status : Option Nat
  code : Option String
  retryAfterSeconds : Option Nat
deriving DecidableEq

/-- What one HTTP attempt does: succeed with content, fail with an axios
error, or throw some other (non-axios) error. -/
inductive CallOutcome where
  | success (content : Str)
  | axiosFailure (e : AxiosError)
  | otherFailure (msg : String)
deriving DecidableEq

/-- Errors propagated out of `requestCompletion`. -/
inductive ReqError where
  | axios (e : AxiosError)
  | emptyResponse
  | other (msg : String)
deriving DecidableEq

def isRateLimit (e : AxiosError) : Bool := e.status = some 429

def isTransientNetwork (e : AxiosError) : Bool :=
  e.status = none &&
    (e.code = some "ENOTFOUND" || e.code = some "ECONNRESET" ||
     e.code = some "ETIMEDOUT" || e.code = some "EAI_AGAIN")

/-- Backoff before the retry that follows attempt number `attempt`:
`500 * 2^attempt` ms, floored for rate limits by the server-advised
`retry-after` duration. -/
def backoffMs (attempt : Nat) (e : AxiosError) : Nat :=
  let base := 500 * 2 ^ attempt
  if isRateLimit e then
    match e.retryAfterSeconds with
    | some s => if 0 < s then max base (s * 1000) else base
    | none => base
  else base

/-- Is this outcome one the loop retries after? -/
def retryableOutcome : CallOutcome → Bool
  | .axiosFailure e => isRateLimit e || isTransientNetwork e
  | _ => false

/-- The result the loop produces when outcome `o` is its final (non-retried)
event: non-empty content is returned, empty content becomes the thrown
`empty response` error (not an axios error, hence rethrown immediately),
axios and other errors are rethrown. -/
def outcomeResult : CallOutcome → Except ReqError Str
  | .success content =>
      if jsTrim content = [] then .error .emptyResponse else .ok content
  | .axiosFailure e => .error (.axios e)
  | .otherFailure msg => .error (.other msg)

/-- The backoff slept after attempt `attempt` when its outcome is retried. -/
def backoffOf (attempt : Nat) : CallOutcome → Nat
  | .axiosFailure e => backoffMs attempt e
  | _ => 0

/-- The retry loop.  `oracle i` is the outcome of HTTP attempt `i`; `fuel`
counts the loop iterations left (`attempt <= MAX_RETRIES` allows 4);
`sleeps` accumulates the backoff delays slept so far.  Returns the result
and the list of backoff delays. -/
def reqGo (oracle : Nat → CallOutcome) (attempt fuel : Nat) (sleeps : List Nat) :
    Except ReqError Str × List Nat :=
  match fuel with
  | 0 => (.error (.other "Groq request failed after retries"), sleeps)
  | fuel + 1 =>
    let o := oracle attempt
    match o with
    | .success content =>
        if jsTrim content = [] then (.error .emptyResponse, sleeps)
        else (.ok content, sleeps)
    | .otherFailure msg => (.error (.other msg), sleeps)
    | .axiosFailure e =>
        if attempt < 3 && (isRateLimit e || isTransientNetwork e) then
          reqGo oracle (attempt + 1) fuel (sleeps ++ [backoffMs attempt e])
        else (.error (.axios e), sleeps)

def requestCompletion (oracle : Nat → CallOutcome) : Except ReqError Str × List Nat :=
  reqGo oracle 0 4 []

/-!
## Streaming document synchronizer — `makeRangeStreamUpdater`,
src/chatViewProvider.ts:2949-2994, and `makeStreamUpdater`,
src/chatViewProvider.ts:3001-3032

```ts
let pending: string | null = null;
let lastLen = 0;
let busy = false;
const apply = async () => {
  if (busy || pending === null) { return; }
  busy = true;
  const text = pending;
  pending = null;
  ... replace the tracked range with text; currentEnd = startOffset + text.length ...
  busy = false;
  if (pending !== null) { apply(); }
};
return {
  onChunk(accumulated: string) {
    if (accumulated.length - lastLen < minChars) { return; }
    lastLen = accumulated.length;
    pending = accumulated;
    apply();
  },
  async flush() {
    while (busy) { await new Promise(r => setTimeout(r, 80)); }
  }
};
```
The document is addressed through the tracked range `[startOffset,
currentEnd)`; the model tracks that range by its textual content `region`.
The runtime is single-threaded; in the interleaving modelled here each
awaited edit completes before the next chunk arrives, so `apply` runs
atomically and the edit succeeds. -/

structure UpdState where
  pending : Option Str
  lastLen : Nat
  busy : Bool
  region : Str
deriving DecidableEq

/-- One full run of `apply`: a no-op while busy or without pending text,
otherwise the pending text replaces the tracked region. -/
def applyStep (s : UpdState) : UpdState :=
  if s.busy then s
  else
    match s.pending with
    | none => s
    | some text => { s with pending := none, region := text, busy := false }

/-- The callback `onChunk(accumulated)`: dropped by the throttle unless the accumulated
text has grown by at least `minChars` since the last accepted write. -/
def onChunk (minChars : Nat) (accumulated : Str) (s : UpdState) : UpdState :=
  if (accumulated.length : Int) - (s.lastLen : Int) < (minChars : Int) then s
  else applyStep { s with lastLen := accumulated.length, pending := some accumulated }

/-- The barrier `flush()` waits until `busy` is false; in the sequential interleaving the
in-flight edit has already completed, so the state is returned unchanged. -/
def flushUpd (s : UpdState) : UpdState := s

/-- The updater as created, with the region holding the original text. -/
def initUpd (original : Str) : UpdState :=
  { pending := none, lastLen := 0, busy := false, region := original }

/-- Feeding a sequence of accumulated deltas to `onChunk`, in order. -/
def feedDeltas (minChars : Nat) (ds : List Str) (s : UpdState) : UpdState :=
  ds.foldl (fun st d => onChunk minChars d st) s

/-!
## Checkpoint manager — capture at src/chatViewProvider.ts:2054-2057,
resolution at src/chatViewProvider.ts:100-121

```ts
// capture (inside handleUserMessage):
const cpId = String(++this.checkpointCounter);
this.checkpoints.set(cpId, { uri: doc.uri, content: doc.getText() });

// resolution (checkpointAction handler):
const cp = this.checkpoints.get(data.id);
if (!cp) { break; }
if (data.action === "discard") {
  ... replace the full document content with cp.content ...
}
// Either way, clean up the checkpoint
this.checkpoints.delete(data.id);
```
Checkpoint ids are successive counter values, modelled as `Nat`; the
checkpoint map is modelled as an association list interacted with only
through lookup, insert and delete. -/

structure CheckpointStore where
  entries : List (Nat × Str)
  counter : Nat
deriving DecidableEq

/-- The document together with the provider state the checkpoint code
touches. -/
structure EditorState where
  doc : Str
  store : CheckpointStore
deriving DecidableEq

inductive CpAction where
  | keep
  | discard
deriving DecidableEq

/-- Capture: `String(++this.checkpointCounter)` plus `checkpoints.set(cpId, snapshot)`:
returns the new state and the fresh checkpoint id. -/
def captureCheckpoint (s : EditorState) : EditorState × Nat :=
  let id := s.store.counter + 1
  ({ s with store := { entries := (id, s.doc) :: s.store.entries, counter := id } }, id)

/-- The `checkpointAction` handler: missing ids do nothing; `discard`
restores the snapshot into the document; either action deletes the entry. -/
def resolveCheckpoint (id : Nat) (a : CpAction) (s : EditorState) : EditorState :=
  match s.store.entries.lookup id with
  | none => s
  | some snapshot =>
    let doc' := match a with
      | .discard => snapshot
      | .keep => s.doc
    { doc := doc',
      store := { s.store with entries := s.store.entries.filter (fun e => e.1 ≠ id) } }

/-- Intermediate document writes between capture and resolution (each one
replaces the document content; none touches the checkpoint store). -/
def applyWrites (ws : List Str) (s : EditorState) : EditorState :=
  ws.foldl (fun st w => { st with doc := w }) s

/-!
## Target-region selector — `handleUserMessage` dispatch,
src/chatViewProvider.ts:2059-2193, and `findRelevantSection`,
src/chatViewProvider.ts:3043-3136

Regular expressions of the source are transliterated: the identifier
extraction `lower.match(/\b[a-z_$][a-z0-9_$]*\b/gi)` becomes maximal runs of
identifier characters whose first character is not a digit; the instruction
triggers such as `/\bnav(bar|igation)?\b/i` become word-delimited occurrence
tests; the per-line patterns such as `/\bnav/i` become occurrence tests with
a word boundary on the left. -/

/-- JavaScript `\w`: letters, digits and underscore. -/
def isWordChar (c : Char) : Bool := c.isAlphanum || c = '_'

/-- Characters of the identifier class `[a-z0-9_$]` (on lowercased text). -/
def isIdentChar (c : Char) : Bool :=
  c.isLower || c.isDigit || c = '_' || c = '$'

/-- Splitting into maximal runs of identifier characters: `cur` is the
reversed run in progress. -/
def identRuns (cur : Str) (s : Str) : List Str :=
  match s with
  | [] => if cur = [] then [] else [cur.reverse]
  | c :: rest =>
    if isIdentChar c then identRuns (c :: cur) rest
    else (if cur = [] then [] else [cur.reverse]) ++ identRuns [] rest

/-- Maximal runs of identifier characters in the lowercased instruction,
keeping the runs that start with `[a-z_$]` (not a digit). -/
def tokenize (s : Str) : List Str :=
  (identRuns [] s).filter fun r =>
    match r with
    | c :: _ => ! c.isDigit
    | [] => false

/-- The curated stop-word set of `findRelevantSection`. -/
def stopWords : List Str :=
  ["the", "a", "an", "is", "it", "to", "in", "on", "of", "for", "and", "or",
   "this", "that", "add", "change", "update", "modify", "remove", "fix", "make",
   "new", "with", "from", "into", "can", "should", "not", "dont", "please",
   "create", "use", "using", "want", "need", "code", "function", "class", "method",
   "style", "color", "text", "background", "css", "html", "javascript", "typescript",
   "react", "component", "button", "input", "form", "div", "section", "header",
   "footer", "nav", "sidebar", "modal", "dropdown"].map String.toList

/-- The `keywords` list: identifiers of the instruction, minus stop words, longer
than two characters. -/
def extractKeywords (instruction : Str) : List Str :=
  (tokenize (toLowerStr instruction)).filter
    (fun w => ¬ w ∈ stopWords ∧ 2 < w.length)

/-- Occurrence of `needle` in `hay` whose left end sits at a word boundary
(start of string or after a non-word character): models `/\bneedle…/i` with
`hay` already lowercased. -/
def containsBoundaryLeft (hay needle : Str) : Bool :=
  (List.range (hay.length + 1)).any fun i =>
    needle.isPrefixOf (hay.drop i) &&
      (i = 0 || !(isWordChar (hay.getD (i - 1) ' ')))

/-- Word-delimited occurrence (word boundary on both ends): models
`/\bword\b/i` with `hay` already lowercased. -/
def containsWord (hay needle : Str) : Bool :=
  (List.range (hay.length + 1)).any fun i =>
    needle.isPrefixOf (hay.drop i) &&
      (i = 0 || !(isWordChar (hay.getD (i - 1) ' '))) &&
      (i + needle.length = hay.length ||
        !(isWordChar (hay.getD (i + needle.length) ' ')))

/-- The per-line section patterns pushed by the instruction triggers; each
pattern is the marker string matched with a left word boundary. -/
def sectionMarkers (lower : Str) : List Str :=
  (if containsWord lower "nav".toList || containsWord lower "navbar".toList ||
      containsWord lower "navigation".toList then ["nav".toList] else []) ++
  (if containsWord lower "header".toList then ["header".toList] else []) ++
  (if containsWord lower "footer".toList then ["footer".toList] else []) ++
  (if containsWord lower "sidebar".toList then ["sidebar".toList] else []) ++
  (if containsWord lower "modal".toList then ["modal".toList] else []) ++
  (if containsWord lower "hero".toList then ["hero".toList] else []) ++
  (if containsWord lower "card".toList then ["card".toList] else []) ++
  (if containsWord lower "table".toList then ["table".toList] else []) ++
  (if containsWord lower "form".toList then ["form".toList] else [])

/-- The score of one line: `+2` per keyword contained in the lowercased
line, `+3` per section pattern matching the line. -/
def lineScore (keywords markers : List Str) (line : Str) : Nat :=
  2 * keywords.countP (fun kw => containsSub (toLowerStr line) kw) +
    3 * markers.countP (fun m => containsBoundaryLeft (toLowerStr line) m)

/-- The argmax loop of `findRelevantSection`: fold over the scored lines
keeping the first line whose score strictly exceeds the best so far,
starting from `bestStart = -1`, `bestScore = 0`. -/
def bestAnchorGo (scores : List Nat) (i : Nat) (best : Int × Nat) : Int × Nat :=
  match scores with
  | [] => best
  | sc :: rest =>
    bestAnchorGo rest (i + 1) (if best.2 < sc then ((i : Int), sc) else best)

def bestAnchor (scores : List Nat) : Int × Nat :=
  bestAnchorGo scores 0 (-1, 0)

/-- Here `}` counts `+1` and `\x7b` counts `-1`: the per-line depth delta of the
backward walk (`(line.match(/[{}]/g) || []).reduce(...)`). -/
def braceDelta (line : Str) : Int :=
  (countAny line ['\x7d'] : Int) - (countAny line ['\x7b'] : Int)

/-- Per-character depth delta of the forward walk: `{`, `(`, `<` open and
`}`, `)`, `>` close. -/
def angleDelta (line : Str) : Int :=
  (countAny line ['\x7b', '(', '<'] : Int) - (countAny line ['\x7d', ')', '>'] : Int)

/-- The block-start test of the backward walk:
`/^\s*(function|class|const|let|var|export|import|<\w|\/\*|\/\/|\.[\w-]+\s*\{|#[\w-]+|@media|@keyframes)/`
applied to the trimmed line. -/
def isBlockStartLine (line : Str) : Bool :=
  let t := jsTrim line
  ("function".toList).isPrefixOf t || ("class".toList).isPrefixOf t ||
  ("const".toList).isPrefixOf t || ("let".toList).isPrefixOf t ||
  ("var".toList).isPrefixOf t || ("export".toList).isPrefixOf t ||
  ("import".toList).isPrefixOf t ||
  (match t with
   | '<' :: c :: _ => isWordChar c
   | _ => false) ||
  ("/*".toList).isPrefixOf t || ("//".toList).isPrefixOf t ||
  (match t with
   | '.' :: rest =>
     let run := rest.takeWhile (fun c => isWordChar c || c = '-')
     let after := (rest.dropWhile (fun c => isWordChar c || c = '-')).dropWhile Char.isWhitespace
     decide (run ≠ []) && (match after with | '\x7b' :: _ => true | _ => false)
   | _ => false) ||
  (match t with
   | '#' :: c :: _ => isWordChar c || c = '-'
   | _ => false) ||
  ("@media".toList).isPrefixOf t || ("@keyframes".toList).isPrefixOf t

/-- Backward walk from the anchor line: accumulate the brace depth and stop
at the first earlier line at depth ≤ 0 that is blank or looks like a block
start; reaching line 0 without stopping yields 0. -/
def backWalk (lines : List Str) (bestStart : Nat) (i : Nat) (depth : Int) : Nat :=
  let line := lines.getD i []
  let depth' := depth + braceDelta line
  if depth' ≤ 0 ∧ i < bestStart ∧ (isBlockStartLine line ∨ jsTrim line = []) then i
  else
    match i with
    | 0 => 0
    | i + 1 => backWalk lines bestStart i depth'

/-- Forward walk from the block start: accumulate the bracket/paren/tag
depth per character and stop after the anchor once depth returns to ≤ 0, or
when ~60 lines past the start are reached; `endAcc` holds the last visited
line when the file ends first. -/
def fwdWalk (lines : List Str) (bestStart start : Nat) (i : Nat) (depth : Int)
    (fuel : Nat) (endAcc : Nat) : Nat :=
  match fuel with
  | 0 => endAcc
  | fuel + 1 =>
    let depth' := depth + angleDelta (lines.getD i [])
    if depth' ≤ 0 ∧ bestStart < i then i
    else if 60 < i - start then i
    else fwdWalk lines bestStart start (i + 1) depth' fuel i

/-- The selector `findRelevantSection(lines, instruction)`: keyword/pattern scoring picks
an anchor line; below the score threshold the result is `none`; otherwise
the anchor is expanded to an enclosing block and a minimum context window is
enforced. -/
def findRelevantSection (lines : List Str) (instruction : Str) :
    Option (Nat × Nat) :=
  let lower := toLowerStr instruction
  let keywords := extractKeywords instruction
  let markers := sectionMarkers lower
  let scores := lines.map (lineScore keywords markers)
  let best := bestAnchor scores
  if best.1 < 0 ∨ best.2 < 2 then none
  else
    let bestStart := best.1.toNat
    let start := backWalk lines bestStart bestStart 0
    let endL := fwdWalk lines bestStart start start 0 (lines.length - start) bestStart
    if endL - start < 3 then
      some (bestStart - 5, min (lines.length - 1) (bestStart + 15))
    else
      some (start, endL)

/-- The editing strategy chosen by `handleUserMessage`. -/
inductive EditMode where
  | selectionMode (startLine endLine ctxBeforeStart ctxAfterEnd : Nat)
  | autoSection (startLine endLine : Nat)
  | wholeFile
deriving DecidableEq

/-- The SELECTION / AUTO-SECTION / WHOLE-FILE dispatch of
`handleUserMessage` (src/chatViewProvider.ts:2059-2193): a non-empty
selection is edited in place with 20 lines of context captured before and
after; otherwise files of more than 80 lines go through
`findRelevantSection`, falling back to a whole-file update when it returns
nothing; files of at most 80 lines are always updated whole-file. -/
def chooseEditStrategy (hasSelection : Bool) (selStartLine selEndLine : Nat)
    (lines : List Str) (instruction : Str) : EditMode :=
  if hasSelection then
    .selectionMode selStartLine selEndLine (selStartLine - 20)
      (min (lines.length - 1) (selEndLine + 20))
  else if 80 < lines.length then
    match findRelevantSection lines instruction with
    | some r => .autoSection r.1 r.2
    | none => .wholeFile
  else .wholeFile

/-!
# Theorems

Helper lemmas come first; the claim theorems follow, one per claim.
-/

lemma append_prefix_of (current addition : Str) :
    current <+: appendAvoidingOverlap current addition := by
  rw [append_eq_spec]
  exact ⟨_, rfl⟩

lemma contRun_prefix (oracle : Nat → RoundResult) (attempt fuel : Nat)
    (assembled : Str) : assembled <+: (contRun oracle attempt fuel assembled).1 := by
  induction fuel generalizing attempt assembled with
  | zero => exact List.prefix_refl _
  | succ fuel ih =>
    rw [contRun]
    by_cases h : (oracle attempt).finishReason = some "length"
    · simp only [h, if_pos rfl]
      exact (append_prefix_of _ _).trans (ih _ _)
    · simp only [if_neg h]
      exact append_prefix_of _ _

/-- Claim C10: the appender keeps `current` as a prefix, its result length
lies between `max` and the sum of the input lengths, and hence the assembled
accumulator of the continuation loop never shrinks and already-assembled
text is never modified by a later merge. -/
theorem C10_appender_prefix_stability (current addition : Str) :
    current <+: appendAvoidingOverlap current addition ∧
    max current.length addition.length ≤ (appendAvoidingOverlap current addition).length ∧
    (appendAvoidingOverlap current addition).length ≤ current.length + addition.length ∧
    ∀ (oracle : Nat → RoundResult) (attempt fuel : Nat),
      current <+: (contRun oracle attempt fuel current).1 := by
  have hk := overlapLenSpec_le current addition
  have hk1 : overlapLenSpec current addition ≤ current.length := by
    have := min_le_right 500 (min current.length addition.length)
    have := min_le_left current.length addition.length
    omega
  have hk2 : overlapLenSpec current addition ≤ addition.length := by
    have := min_le_right 500 (min current.length addition.length)
    have := min_le_right current.length addition.length
    omega
  refine ⟨append_prefix_of _ _, ?_, ?_, fun oracle attempt fuel => contRun_prefix _ _ _ _⟩
  · rw [append_length]
    omega
  · rw [append_length]
    omega

/-- Claim C3: the overlap-safe appender contract — empty inputs pass the
other input through unchanged, and otherwise the result is
`current ++ addition[k:]` for `k` the largest admissible overlap (zero when
no suffix of `current` matches a prefix of `addition` within the
`min(500, len current, len addition)` bound), exactly as the
largest-to-smallest scan finds it. -/
theorem C3_appender_contract (current addition : Str) :
    (current = [] → appendAvoidingOverlap current addition = addition) ∧
    (addition = [] → appendAvoidingOverlap current addition = current) ∧
    appendAvoidingOverlap current addition =
      current ++ addition.drop (overlapLenSpec current addition) := by
  refine ⟨?_, ?_, append_eq_spec _ _⟩
  · intro h
    subst h
    rfl
  · intro h
    subst h
    unfold appendAvoidingOverlap
    by_cases hc : current = [] <;> simp [hc]

/-- Witness for C3 at the concrete spec example `append("abcXYZ", "XYZdef")`:
the characterisation evaluates to `"abcXYZdef"` with overlap 3. -/
theorem C3_witness :
    appendAvoidingOverlap "abcXYZ".toList "XYZdef".toList =
      "abcXYZ".toList ++ ("XYZdef".toList).drop (overlapLenSpec "abcXYZ".toList "XYZdef".toList) ∧
    appendAvoidingOverlap "abcXYZ".toList "XYZdef".toList = "abcXYZdef".toList :=
  ⟨(C3_appender_contract _ _).2.2, by decide⟩

/-- Counterexample to claim C4 as stated: splitting `"aa"` at `k = 1` gives
`append("a", "a") = "a"`, because the scan finds the one-character overlap
and removes it, so the split round-trip fails. -/
theorem C4_counterexample :
    appendAvoidingOverlap ("aa".toList.take 1) ("aa".toList.drop 1) ≠ "aa".toList := by
  decide

/-- Claim C4 amended: the split round-trip `append(s[0:k], s[k:]) = s` holds
exactly when the overlap scan finds nothing to remove, i.e. when no
non-empty prefix of `s[k:]` within the scan bound is a suffix of `s[0:k]`. -/
theorem C4_split_roundtrip_amended (s : Str) (k : Nat)
    (h : ∀ j, 0 < j →
      j ≤ min 500 (min (s.take k).length (s.drop k).length) →
      ¬ ((s.drop k).take j).isSuffixOf (s.take k) = true) :
    appendAvoidingOverlap (s.take k) (s.drop k) = s := by
  rw [append_eq_spec]
  have hz : overlapLenSpec (s.take k) (s.drop k) = 0 := by
    unfold overlapLenSpec
    rw [Nat.findGreatest_eq_zero_iff]
    intro j hj hjb
    exact h j hj hjb
  rw [hz, List.drop_zero, List.take_append_drop]

/-- Witness for C4 amended at `s = "ab"`, `k = 1`: no overlap exists and the
round-trip reassembles `"ab"`. -/
theorem C4_witness :
    appendAvoidingOverlap ("ab".toList.take 1) ("ab".toList.drop 1) = "ab".toList :=
  C4_split_roundtrip_amended "ab".toList 1 (by
    intro j hj hjb
    have hb : min 500 (min ("ab".toList.take 1).length ("ab".toList.drop 1).length) = 1 := by
      decide
    rw [hb] at hjb
    have hj1 : j = 1 := by omega
    subst hj1
    decide)

lemma contRun_calls_le (oracle : Nat → RoundResult) (fuel : Nat) :
    ∀ (attempt : Nat) (assembled : Str),
      (contRun oracle attempt fuel assembled).2 ≤ attempt + fuel := by
  induction fuel with
  | zero => intro attempt assembled; simp [contRun]
  | succ fuel ih =>
    intro attempt assembled
    rw [contRun]
    by_cases h : (oracle attempt).finishReason = some "length"
    · rw [if_pos h]
      have := ih (attempt + 1) (appendAvoidingOverlap assembled (oracle attempt).content)
      omega
    · rw [if_neg h]
      omega

lemma contRun_stops_early (oracle : Nat → RoundResult) (i : Nat) :
    ∀ (fuel attempt : Nat) (assembled : Str), i < fuel →
      (∀ j, j < i → (oracle (attempt + j)).finishReason = some "length") →
      (oracle (attempt + i)).finishReason ≠ some "length" →
      (contRun oracle attempt fuel assembled).2 = attempt + i + 1 := by
  induction i with
  | zero =>
    intro fuel attempt assembled hfuel _ hstop
    obtain ⟨fuel, rfl⟩ : ∃ f, fuel = f + 1 := ⟨fuel - 1, by omega⟩
    rw [contRun]
    simp only [Nat.add_zero] at hstop
    simp [hstop]
  | succ i ih =>
    intro fuel attempt assembled hfuel hlen hstop
    obtain ⟨fuel, rfl⟩ : ∃ f, fuel = f + 1 := ⟨fuel - 1, by omega⟩
    rw [contRun]
    have h0 : (oracle (attempt + 0)).finishReason = some "length" := hlen 0 (by omega)
    simp only [Nat.add_zero] at h0
    rw [if_pos h0]
    have := ih fuel (attempt + 1) (appendAvoidingOverlap assembled (oracle attempt).content)
      (by omega)
      (fun j hj => by
        have := hlen (j + 1) (by omega)
        simpa [Nat.add_assoc, Nat.add_comm 1 j] using this)
      (by
        have heq : attempt + 1 + i = attempt + (i + 1) := by omega
        rw [heq]
        exact hstop)
    omega

/-- Claim C6: the continuation controller issues at most `maxRounds` model
calls, and it stops right after the first call whose finish reason is not
the length limit. -/
theorem C6_continuation_bounded_rounds (oracle : Nat → RoundResult) (maxRounds : Nat) :
    (completeWithContinuation oracle maxRounds).2 ≤ maxRounds ∧
    ∀ i, i < maxRounds →
      (∀ j, j < i → (oracle j).finishReason = some "length") →
      (oracle i).finishReason ≠ some "length" →
      (completeWithContinuation oracle maxRounds).2 = i + 1 := by
  constructor
  · have := contRun_calls_le oracle maxRounds 0 []
    simpa [completeWithContinuation] using this
  · intro i hi hlen hstop
    have := contRun_stops_early oracle i maxRounds 0 [] hi
      (fun j hj => by simpa using hlen j hj)
      (by simpa using hstop)
    simpa [completeWithContinuation] using this

/-- Witness for C6: a model that always stops naturally yields exactly one
call with a budget of five rounds, and the bound also holds. -/
theorem C6_witness :
    (completeWithContinuation (fun _ => ⟨"x".toList, some "stop"⟩) 5).2 ≤ 5 ∧
    (completeWithContinuation (fun _ => ⟨"x".toList, some "stop"⟩) 5).2 = 1 :=
  ⟨(C6_continuation_bounded_rounds _ 5).1,
   (C6_continuation_bounded_rounds (fun _ => ⟨"x".toList, some "stop"⟩) 5).2 0
     (by omega) (fun j hj => absurd hj (Nat.not_lt_zero j)) (by decide)⟩

/-- Claim C7 evaluated at the failing input: round 0 succeeds with non-empty
output and a length-limited finish (so on its own it would return
`"let x = 1;"`), round 1 throws after its retry policy — and
`completeWithContinuation` propagates the exception, discarding the
assembled partial output instead of returning it. -/
theorem C7_partial_output_lost :
    completeWithContinuationE failingOracle 5 = .error "ECONNRESET" ∧
    contRunE failingOracle 0 1 [] = .ok ("let x = 1;".toList, 1) := by
  constructor <;> rfl

lemma reqGo_spec (oracle : Nat → CallOutcome) (k : Nat) :
    ∀ (attempt : Nat) (sleeps : List Nat),
      attempt + k ≤ 3 →
      (∀ j, j < k → retryableOutcome (oracle (attempt + j)) = true) →
      (retryableOutcome (oracle (attempt + k)) = false ∨ attempt + k = 3) →
      reqGo oracle attempt (4 - attempt) sleeps =
        (outcomeResult (oracle (attempt + k)),
         sleeps ++ (List.range k).map (fun i => backoffOf (attempt + i) (oracle (attempt + i)))) := by
  induction k with
  | zero =>
    intro attempt sleeps hle _ hterm
    obtain ⟨f, hf⟩ : ∃ f, 4 - attempt = f + 1 := ⟨3 - attempt, by omega⟩
    rw [hf, reqGo]
    simp only [Nat.add_zero] at hterm ⊢
    cases ho : oracle attempt with
    | success content =>
      by_cases h : jsTrim content = [] <;> simp [outcomeResult, h]
    | otherFailure msg => simp [outcomeResult]
    | axiosFailure e =>
      rcases hterm with hterm | hterm
      · rw [ho] at hterm
        simp only [retryableOutcome] at hterm
        simp [outcomeResult, hterm]
      · simp [outcomeResult, hterm]
  | succ k ih =>
    intro attempt sleeps hle hretry hterm
    obtain ⟨f, hf⟩ : ∃ f, 4 - attempt = f + 1 := ⟨3 - attempt, by omega⟩
    have h0 := hretry 0 (by omega)
    simp only [Nat.add_zero] at h0
    cases ho : oracle attempt with
    | success content => rw [ho] at h0; simp [retryableOutcome] at h0
    | otherFailure msg => rw [ho] at h0; simp [retryableOutcome] at h0
    | axiosFailure e =>
      rw [ho] at h0
      simp only [retryableOutcome] at h0
      have hlt : attempt < 3 := by omega
      rw [hf, reqGo]
      simp only [ho, h0, hlt, decide_true_eq_true, Bool.true_and, if_true]
      have hfuel : f = 4 - (attempt + 1) := by omega
      rw [hfuel]
      rw [ih (attempt + 1) (sleeps ++ [backoffMs attempt e]) (by omega)
        (fun j hj => by
          have := hretry (j + 1) (by omega)
          have heq : attempt + (j + 1) = attempt + 1 + j := by omega
          rwa [heq] at this)
        (by
          have heq : attempt + (k + 1) = attempt + 1 + k := by omega
          rwa [heq] at hterm)]
      have hidx : attempt + 1 + k = attempt + (k + 1) := by omega
      rw [hidx]
      refine congrArg _ ?_
      rw [List.append_assoc, List.range_succ_eq_map, List.map_cons, List.map_map]
      have hfun : ((fun i => backoffOf (attempt + i) (oracle (attempt + i))) ∘ Nat.succ) =
          fun i => backoffOf (attempt + 1 + i) (oracle (attempt + 1 + i)) := by
        funext i
        have heq : attempt + (i + 1) = attempt + 1 + i := by omega
        simp [Function.comp, Nat.succ_eq_add_one, heq]
      rw [hfun]
      have hb0 : backoffOf (attempt + 0) (oracle (attempt + 0)) = backoffMs attempt e := by
        simp [ho, backoffOf]
      rw [hb0]
      rfl

lemma reqGo_len (oracle : Nat → CallOutcome) :
    ∀ (fuel attempt : Nat) (sleeps : List Nat),
      (reqGo oracle attempt fuel sleeps).2.length ≤ sleeps.length + (3 - attempt) := by
  intro fuel
  induction fuel with
  | zero => intro attempt sleeps; simp [reqGo]
  | succ fuel ih =>
    intro attempt sleeps
    rw [reqGo]
    cases ho : oracle attempt with
    | success content =>
      by_cases h : jsTrim content = [] <;> simp [h]
    | otherFailure msg => simp
    | axiosFailure e =>
      by_cases hc : (decide (attempt < 3) && (isRateLimit e || isTransientNetwork e)) = true
      · simp only [hc, if_true]
        have hrec := ih (attempt + 1) (sleeps ++ [backoffMs attempt e])
        have hlt : attempt < 3 := by
          simp only [Bool.and_eq_true, decide_eq_true_eq] at hc
          exact hc.1
        simp only [List.length_append, List.length_singleton] at hrec
        omega
      · simp only [Bool.not_eq_true] at hc
        simp only [hc, if_false]
        simp

/-- Claim C8: the retry dispatch of `requestCompletion`.  A failed attempt
is retried exactly when it is retryable (rate limit 429, or no status and a
transient network code), for at most 3 retries; each retry sleeps
`500 * 2^attempt` ms floored for rate limits by the server retry-after; the
first non-retryable outcome — including 401/403 failures and empty
responses — produces the final result immediately, with exactly the
backoffs of the preceding retryable failures slept. -/
theorem C8_retry_dispatch (oracle : Nat → CallOutcome) :
    (∀ k, k ≤ 3 →
      (∀ j, j < k → retryableOutcome (oracle j) = true) →
      retryableOutcome (oracle k) = false →
      requestCompletion oracle =
        (outcomeResult (oracle k),
         (List.range k).map (fun i => backoffOf i (oracle i)))) ∧
    ((∀ j, j ≤ 3 → retryableOutcome (oracle j) = true) →
      requestCompletion oracle =
        (outcomeResult (oracle 3),
         (List.range 3).map (fun i => backoffOf i (oracle i)))) ∧
    (requestCompletion oracle).2.length ≤ 3 ∧
    (∀ e, oracle 0 = .axiosFailure e →
      (e.status = some 401 ∨ e.status = some 403) →
      requestCompletion oracle = (.error (.axios e), [])) ∧
    (∀ content, oracle 0 = .success content → jsTrim content = [] →
      requestCompletion oracle = (.error .emptyResponse, [])) := by
  have hmain : ∀ k, k ≤ 3 →
      (∀ j, j < k → retryableOutcome (oracle j) = true) →
      (retryableOutcome (oracle k) = false ∨ k = 3) →
      requestCompletion oracle =
        (outcomeResult (oracle k),
         (List.range k).map (fun i => backoffOf i (oracle i))) := by
    intro k hk hr ht
    have := reqGo_spec oracle k 0 [] (by omega)
      (fun j hj => by simpa using hr j hj)
      (by simpa using ht)
    simpa [requestCompletion] using this
  refine ⟨fun k hk hr ht => hmain k hk hr (Or.inl ht), ?_, ?_, ?_, ?_⟩
  · intro hall
    exact hmain 3 (by omega) (fun j hj => hall j (by omega)) (Or.inr rfl)
  · have := reqGo_len oracle 4 0 []
    simpa [requestCompletion] using this
  · intro e he hstatus
    have hret : retryableOutcome (oracle 0) = false := by
      rw [he]
      simp only [retryableOutcome, isRateLimit, isTransientNetwork]
      rcases hstatus with h | h <;> simp [h]
    have := hmain 0 (by omega) (fun j hj => absurd hj (Nat.not_lt_zero j)) (Or.inl hret)
    simpa [he, outcomeResult] using this
  · intro content he hempty
    have hret : retryableOutcome (oracle 0) = false := by
      rw [he]; rfl
    have := hmain 0 (by omega) (fun j hj => absurd hj (Nat.not_lt_zero j)) (Or.inl hret)
    simpa [he, outcomeResult, hempty] using this

/-- Witness for C8: first attempt rate-limited with a 2-second retry-after,
second attempt succeeds — one retry is made and the backoff is the floored
`max(500 * 2^0, 2000) = 2000` ms. -/
theorem C8_witness :
    requestCompletion
        (fun n => if n = 0 then .axiosFailure ⟨some 429, none, some 2⟩
                  else .success "ok, here is the code".toList) =
      (.ok "ok, here is the code".toList, [2000]) := by
  have h := (C8_retry_dispatch
      (fun n => if n = 0 then .axiosFailure ⟨some 429, none, some 2⟩
                else .success "ok, here is the code".toList)).1 1
    (by omega)
    (fun j hj => by
      have : j = 0 := by omega
      subst this
      rfl)
    (by rfl)
  rw [h]
  rfl

lemma onChunk_busy (minChars : Nat) (accumulated : Str) (s : UpdState)
    (h : s.busy = false) : (onChunk minChars accumulated s).busy = false := by
  unfold onChunk applyStep
  by_cases hc : (accumulated.length : Int) - (s.lastLen : Int) < (minChars : Int)
  · rw [if_pos hc]; exact h
  · rw [if_neg hc]
    simp [h]

lemma feedDeltas_busy (minChars : Nat) (ds : List Str) :
    ∀ (s : UpdState), s.busy = false → (feedDeltas minChars ds s).busy = false := by
  induction ds with
  | nil => intro s h; exact h
  | cons d ds ih =>
    intro s h
    exact ih _ (onChunk_busy minChars d s h)

/-- Counterexample to claim C1 as stated: a single delta (trivially a prefix
chain) shorter than the 150-character growth threshold is dropped by the
throttle, and after `flush()` the tracked region still holds the original
content, not the final delta. -/
theorem C1_counterexample :
    (flushUpd (feedDeltas 150 ["hello".toList] (initUpd "original".toList))).region ≠
      "hello".toList := by
  decide

/-- Claim C1 amended: feeding a prefix chain of deltas and flushing leaves
the tracked region containing exactly the final delta `d` provided the
throttle accepts `d` — its length exceeds the last accepted length by at
least `minChars`; intermediate deltas the throttle dropped are irrelevant.
(Without that proviso the region holds the last accepted delta, or the
original content when none was accepted, and the callers restore
convergence with a final authoritative write after `flush()`.) -/
theorem C1_synchronizer_convergence_amended (minChars : Nat) (ds : List Str)
    (d original : Str)
    (_hchain : List.Chain' (· <+: ·) (ds ++ [d]))
    (haccept : (minChars : Int) ≤
      (d.length : Int) - ((feedDeltas minChars ds (initUpd original)).lastLen : Int)) :
    (flushUpd (feedDeltas minChars (ds ++ [d]) (initUpd original))).region = d := by
  unfold feedDeltas at *
  rw [List.foldl_append]
  set s1 := List.foldl (fun st del => onChunk minChars del st) (initUpd original) ds with hs1
  have hbusy : s1.busy = false := feedDeltas_busy minChars ds (initUpd original) rfl
  simp only [List.foldl_cons, List.foldl_nil]
  unfold flushUpd onChunk applyStep
  rw [if_neg (by omega)]
  simp [hbusy]

/-- Witness for C1 amended: a single 150-character delta meets the growth
threshold, is written, and the region equals it after `flush()`. -/
theorem C1_witness :
    (flushUpd (feedDeltas 150 ([] ++ [List.replicate 150 'a'])
      (initUpd "original".toList))).region = List.replicate 150 'a' :=
  C1_synchronizer_convergence_amended 150 [] (List.replicate 150 'a')
    "original".toList (List.chain'_singleton _) (by simp [feedDeltas, initUpd])

lemma resolve_noop (id : Nat) (b : CpAction) (t : EditorState)
    (h : t.store.entries.lookup id = none) : resolveCheckpoint id b t = t := by
  unfold resolveCheckpoint
  rw [h]

lemma applyWrites_store (ws : List Str) :
    ∀ (s : EditorState), (applyWrites ws s).store = s.store := by
  induction ws with
  | nil => intro s; rfl
  | cons w ws ih => intro s; exact ih _

lemma lookup_filter_ne (id : Nat) :
    ∀ (l : List (Nat × Str)), (l.filter (fun e => e.1 ≠ id)).lookup id = none := by
  intro l
  induction l with
  | nil => rfl
  | cons e l ih =>
    by_cases h : e.1 ≠ id
    · rw [List.filter_cons_of_pos (by simpa using h)]
      rw [List.lookup_cons]
      have : (id == e.1) = false := by
        simp only [beq_eq_false_iff_ne]
        exact fun hc => h hc.symm
      rw [this]
      exact ih
    · rw [List.filter_cons_of_neg (by simpa using h)]
      exact ih

/-- Claim C2: capture then DISCARD restores the document byte-for-byte to
the snapshot, regardless of intermediate writes; after any resolution the
entry is gone, so a second resolve with the same id changes nothing. -/
theorem C2_checkpoint_roundtrip (s : EditorState) (writes : List Str) (a b : CpAction) :
    (resolveCheckpoint (captureCheckpoint s).2 .discard
        (applyWrites writes (captureCheckpoint s).1)).doc = s.doc ∧
    ((resolveCheckpoint (captureCheckpoint s).2 a
        (applyWrites writes (captureCheckpoint s).1)).store.entries.lookup
          (captureCheckpoint s).2 = none) ∧
    (resolveCheckpoint (captureCheckpoint s).2 b
        (resolveCheckpoint (captureCheckpoint s).2 a
          (applyWrites writes (captureCheckpoint s).1))).doc =
      (resolveCheckpoint (captureCheckpoint s).2 a
        (applyWrites writes (captureCheckpoint s).1)).doc := by
  set id := (captureCheckpoint s).2 with hid
  have hstore : (applyWrites writes (captureCheckpoint s).1).store =
      (captureCheckpoint s).1.store := applyWrites_store _ _
  have hlookup : (applyWrites writes (captureCheckpoint s).1).store.entries.lookup id =
      some s.doc := by
    rw [hstore]
    show List.lookup id ((id, s.doc) :: s.store.entries) = some s.doc
    rw [List.lookup_cons]
    simp
  refine ⟨?_, ?_, ?_⟩
  · unfold resolveCheckpoint
    rw [hlookup]
  · unfold resolveCheckpoint
    rw [hlookup]
    cases a <;> exact lookup_filter_ne id _
  · have hnone : (resolveCheckpoint id a
        (applyWrites writes (captureCheckpoint s).1)).store.entries.lookup id = none := by
      unfold resolveCheckpoint
      rw [hlookup]
      cases a <;> exact lookup_filter_ne id _
    rw [resolve_noop id b _ hnone]

lemma countAny_cons (a : Char) (cs : List Char) (ha : a ∉ cs) (t : Str) :
    countAny t (a :: cs) = countAny t [a] + countAny t cs := by
  induction t with
  | nil => rfl
  | cons c t ih =>
    unfold countAny at ih ⊢
    rw [List.filter_cons, List.filter_cons, List.filter_cons]
    by_cases h1 : c = a
    · subst h1
      rw [if_pos (by simp), if_pos (by simp), if_neg (by simpa using ha)]
      simp only [List.length_cons]
      omega
    · by_cases h3 : c ∈ cs
      · rw [if_pos (by simp [h3]), if_neg (by simp [h1]), if_pos (by simpa using h3)]
        simp only [List.length_cons]
        omega
      · rw [if_neg (by simp [h1, h3]), if_neg (by simp [h1]), if_neg (by simpa using h3)]
        omega

lemma countAny_zero_of_not_mem (a : Char) (t : Str) (h : a ∉ t) :
    countAny t [a] = 0 := by
  unfold countAny
  rw [List.length_eq_zero, List.filter_eq_nil_iff]
  intro c hc
  simp only [List.mem_singleton, decide_eq_true_eq]
  intro hca
  subst hca
  exact h hc

/-- Counterexample to claim C5 as stated: this 51-character TypeScript text
has equal counts of every matching delimiter pair (one `[` and one `]`, no
braces, no parens), yet `looksIncomplete` returns `true`, because the
general branch counts `[` among the opening delimiters but never counts `]`
among the closing ones. -/
theorem C5_counterexample :
    countAny (jsTrim "const xs = [1, 2, 3]; let y = xs.length; y = y + 1;".toList) ['\x7b'] =
      countAny (jsTrim "const xs = [1, 2, 3]; let y = xs.length; y = y + 1;".toList) ['\x7d'] ∧
    countAny (jsTrim "const xs = [1, 2, 3]; let y = xs.length; y = y + 1;".toList) ['('] =
      countAny (jsTrim "const xs = [1, 2, 3]; let y = xs.length; y = y + 1;".toList) [')'] ∧
    countAny (jsTrim "const xs = [1, 2, 3]; let y = xs.length; y = y + 1;".toList) ['['] =
      countAny (jsTrim "const xs = [1, 2, 3]; let y = xs.length; y = y + 1;".toList) [']'] ∧
    looksIncomplete "const xs = [1, 2, 3]; let y = xs.length; y = y + 1;".toList
      "typescript".toList = true := by
  decide

/-- Claim C5 amended: for non-markup content types — and, in the general
branch, for text free of square brackets, which the source miscounts —
pairwise-balanced delimiters make `looksIncomplete` return `false`, and one
unmatched open brace (or, outside the style-sheet branch, one unmatched
open paren) in text of at least 50 trimmed characters makes it return
`true`. -/
theorem C5_completeness_balance_amended (code language : Str)
    (hnothtml : isHtmlLang (toLowerStr language) = false)
    (hsafe : isJsxLang (toLowerStr language) = true ∨
      isCssLang (toLowerStr language) = true ∨ '[' ∉ jsTrim code) :
    (countAny (jsTrim code) ['\x7b'] = countAny (jsTrim code) ['\x7d'] →
     countAny (jsTrim code) ['('] = countAny (jsTrim code) [')'] →
     countAny (jsTrim code) ['['] = countAny (jsTrim code) [']'] →
     looksIncomplete code language = false) ∧
    (50 ≤ (jsTrim code).length →
     ((countAny (jsTrim code) ['\x7b'] = countAny (jsTrim code) ['\x7d'] + 1 ∧
       countAny (jsTrim code) ['('] = countAny (jsTrim code) [')'] ∧
       countAny (jsTrim code) ['['] = countAny (jsTrim code) [']']) ∨
      (isCssLang (toLowerStr language) = false ∧
       countAny (jsTrim code) ['('] = countAny (jsTrim code) [')'] + 1 ∧
       countAny (jsTrim code) ['\x7b'] = countAny (jsTrim code) ['\x7d'] ∧
       countAny (jsTrim code) ['['] = countAny (jsTrim code) [']'])) →
     looksIncomplete code language = true) := by
  have hjsx : countAny (jsTrim code) ['\x7b', '('] =
      countAny (jsTrim code) ['\x7b'] + countAny (jsTrim code) ['('] :=
    countAny_cons _ _ (by decide) _
  have hjsxc : countAny (jsTrim code) ['\x7d', ')'] =
      countAny (jsTrim code) ['\x7d'] + countAny (jsTrim code) [')'] :=
    countAny_cons _ _ (by decide) _
  have hgen : countAny (jsTrim code) ['\x7b', '(', '['] =
      countAny (jsTrim code) ['\x7b'] +
        (countAny (jsTrim code) ['('] + countAny (jsTrim code) ['[']) := by
    rw [countAny_cons '\x7b' ['(', '['] (by decide), countAny_cons '(' ['['] (by decide)]
  constructor
  · intro h1 h2 h3
    unfold looksIncomplete
    by_cases hg : (jsTrim code).length < 50
    · simp [hg]
    · have hne : ¬ jsTrim code = [] := by
        intro hh
        rw [hh] at hg
        simp at hg
      rw [if_neg (by simp [hne, hg])]
      simp only [hnothtml, Bool.false_eq_true, if_false]
      by_cases hj : isJsxLang (toLowerStr language) = true
      · simp only [hj, if_true]
        rw [hjsx, hjsxc]
        simp only [decide_eq_false_iff_not, not_lt]
        omega
      · rw [Bool.not_eq_true] at hj
        simp only [hj, Bool.false_eq_true, if_false]
        by_cases hcss : isCssLang (toLowerStr language) = true
        · simp only [hcss, if_true]
          simp only [decide_eq_false_iff_not, not_lt]
          omega
        · rw [Bool.not_eq_true] at hcss
          simp only [hcss, Bool.false_eq_true, if_false]
          have hnb : '[' ∉ jsTrim code := by
            rcases hsafe with h | h | h
            · rw [hj] at h; exact absurd h (by simp)
            · rw [hcss] at h; exact absurd h (by simp)
            · exact h
          have hz : countAny (jsTrim code) ['['] = 0 :=
            countAny_zero_of_not_mem _ _ hnb
          rw [hgen, hjsxc]
          simp only [decide_eq_false_iff_not, not_lt]
          omega
  · intro hlen hdisj
    unfold looksIncomplete
    have hne : ¬ jsTrim code = [] := by
      intro hh
      rw [hh] at hlen
      simp at hlen
    have hg : ¬ (jsTrim code).length < 50 := by omega
    rw [if_neg (by simp [hne, hg])]
    simp only [hnothtml, Bool.false_eq_true, if_false]
    by_cases hj : isJsxLang (toLowerStr language) = true
    · simp only [hj, if_true]
      rw [hjsx, hjsxc]
      simp only [decide_eq_true_eq]
      rcases hdisj with ⟨hb, hp, _⟩ | ⟨_, hp, hb, _⟩ <;> omega
    · rw [Bool.not_eq_true] at hj
      simp only [hj, Bool.false_eq_true, if_false]
      by_cases hcss : isCssLang (toLowerStr language) = true
      · simp only [hcss, if_true]
        simp only [decide_eq_true_eq]
        rcases hdisj with ⟨hb, _, _⟩ | ⟨hfalse, _, _, _⟩
        · omega
        · rw [hcss] at hfalse
          exact absurd hfalse (by simp)
      · rw [Bool.not_eq_true] at hcss
        simp only [hcss, Bool.false_eq_true, if_false]
        have hnb : '[' ∉ jsTrim code := by
          rcases hsafe with h | h | h
          · rw [hj] at h; exact absurd h (by simp)
          · rw [hcss] at h; exact absurd h (by simp)
          · exact h
        have hz : countAny (jsTrim code) ['['] = 0 :=
          countAny_zero_of_not_mem _ _ hnb
        rw [hgen, hjsxc]
        simp only [decide_eq_true_eq]
        rcases hdisj with ⟨hb, hp, _⟩ | ⟨_, hp, hb, _⟩ <;> omega

/-- Witness for C5 amended: a balanced 52-character function body in the
general branch is judged complete. -/
theorem C5_witness :
    looksIncomplete "function foo() \x7b return 1; \x7d // padding padding padd".toList
      "typescript".toList = false :=
  (C5_completeness_balance_amended
      "function foo() \x7b return 1; \x7d // padding padding padd".toList
      "typescript".toList (by decide) (Or.inr (Or.inr (by decide)))).1
    (by decide) (by decide) (by decide)

lemma bestAnchorGo_snd (scores : List Nat) :
    ∀ (i : Nat) (best : Int × Nat),
      (bestAnchorGo scores i best).2 = best.2 ∨ (bestAnchorGo scores i best).2 ∈ scores := by
  induction scores with
  | nil => intro i best; exact Or.inl rfl
  | cons sc rest ih =>
    intro i best
    rw [bestAnchorGo]
    by_cases h : best.2 < sc
    · rw [if_pos h]
      rcases ih (i + 1) ((i : Int), sc) with h' | h'
      · exact Or.inr (by rw [h']; exact List.mem_cons_self _ _)
      · exact Or.inr (List.mem_cons_of_mem _ h')
    · rw [if_neg h]
      rcases ih (i + 1) best with h' | h'
      · exact Or.inl h'
      · exact Or.inr (List.mem_cons_of_mem _ h')

lemma findRelevantSection_none (lines : List Str) (instruction : Str)
    (h : ∀ line ∈ lines,
      lineScore (extractKeywords instruction) (sectionMarkers (toLowerStr instruction))
        line < 2) :
    findRelevantSection lines instruction = none := by
  unfold findRelevantSection
  have hscore : (bestAnchor
      (lines.map (lineScore (extractKeywords instruction)
        (sectionMarkers (toLowerStr instruction))))).2 < 2 := by
    rcases bestAnchorGo_snd
        (lines.map (lineScore (extractKeywords instruction)
          (sectionMarkers (toLowerStr instruction)))) 0 (-1, 0) with h' | h'
    · rw [bestAnchor, h']; omega
    · rw [bestAnchor]
      obtain ⟨line, hline, heq⟩ := List.mem_map.mp h'
      rw [← heq]
      exact h line hline
  rw [if_pos (Or.inr hscore)]

/-- Claim C9: target-region dispatch.  A non-empty selection is edited in
SELECTION mode at exactly the selection bounds with a 20-line context
window; without a selection, documents over 80 lines go through the line
scorer and fall back to a whole-file update whenever no line reaches score
2; documents of at most 80 lines are always updated whole-file. -/
theorem C9_target_region_dispatch (selStartLine selEndLine : Nat) (lines : List Str)
    (instruction : Str) :
    (chooseEditStrategy true selStartLine selEndLine lines instruction =
      .selectionMode selStartLine selEndLine (selStartLine - 20)
        (min (lines.length - 1) (selEndLine + 20))) ∧
    (80 < lines.length →
      (∀ line ∈ lines,
        lineScore (extractKeywords instruction) (sectionMarkers (toLowerStr instruction))
          line < 2) →
      chooseEditStrategy false selStartLine selEndLine lines instruction = .wholeFile) ∧
    (lines.length ≤ 80 →
      chooseEditStrategy false selStartLine selEndLine lines instruction = .wholeFile) := by
  refine ⟨rfl, ?_, ?_⟩
  · intro hlen hscore
    unfold chooseEditStrategy
    rw [if_neg (by simp), if_pos hlen, findRelevantSection_none lines instruction hscore]
  · intro hlen
    unfold chooseEditStrategy
    rw [if_neg (by simp), if_neg (by omega)]

/-- Witness for C9: an 81-line document and an instruction whose words are
all stop words or too short leaves every line at score 0, so the edit falls
back to the whole file; a small document is also whole-file. -/
theorem C9_witness :
    chooseEditStrategy false 0 0 (List.replicate 81 []) "fix it".toList = .wholeFile ∧
    chooseEditStrategy false 0 0 (List.replicate 10 ("x".toList)) "add a footer".toList =
      .wholeFile :=
  ⟨(C9_target_region_dispatch 0 0 (List.replicate 81 []) "fix it".toList).2.1
      (by simp) (by decide),
   (C9_target_region_dispatch 0 0 (List.replicate 10 ("x".toList))
      "add a footer".toList).2.2 (by simp)⟩
